import Mathlib

/-!
Verification of the navigation tree synthesis engine of astrowind-i18n
(src/utils/auto-navigation.ts), shallowly embedded in Lean 4.

JavaScript values are modelled as follows: strings are `String`, optional
fields are `Option`, JS `Map` objects are association lists in insertion
order, arrays are lists, and machine numbers used by `navigation.order`
are `Int` (only their ordering matters to the engine).  The host function
`String.prototype.localeCompare` and the external permalink resolver
`getPermalink` (imported from the permalinks module, which is not part of
this repository snapshot) are abstract parameters of the definitions.
-/

set_option autoImplicit false
set_option maxRecDepth 10000

namespace AutoNav

/-- The value of a `showIn` front-matter field: either a single string or
an array of strings, mirroring the TS union `string | string[]`. -/
inductive ShowInVal : Type where
  | str (s : String)
  | arr (l : List String)
deriving Repr, DecidableEq

/-- The `navigation` front-matter object (TS interface `AutoNavConfig`). -/
structure AutoNavConfig : Type where
  title : Option String := none
  order : Option Int := none
  showIn : Option ShowInVal := none
  ty : Option String := none
  slug : Option String := none
  exclude : Bool := false
deriving Repr, DecidableEq

/-- A scanned page (TS interface `AutoNavPage`): route path, display title,
resolved href and the raw navigation object. -/
structure AutoNavPage : Type where
  path : String
  title : String
  href : Option String
  navigation : Option AutoNavConfig
deriving Repr, DecidableEq

/-- One entry of the `import.meta.glob` result consumed by `scanPages`:
the file path of the page module together with its exported `navigation`
object. -/
structure PageModule : Type where
  filePath : String
  navigation : Option AutoNavConfig
deriving Repr, DecidableEq

/-! ## String helpers -/

/-- JS `String.prototype.split` on a character class, keeping empty chunks,
on the character list of a string. -/
def splitByAux (p : Char → Bool) : List Char → List (List Char)
  | [] => [[]]
  | c :: cs =>
    match splitByAux p cs with
    | [] => [[c]]
    | g :: gs => if p c then [] :: g :: gs else (c :: g) :: gs

/-- JS `s.split(sep)` for a one-character class separator. -/
def jsSplit (s : String) (p : Char → Bool) : List String :=
  (splitByAux p s.data).map fun l => ⟨l⟩

/-- JS `path.split(&#x27;/&#x27;).filter(Boolean)`: slash-separated segments with
empty segments removed (the empty string is falsy). -/
def splitPath (s : String) : List String :=
  (jsSplit s (fun c => c = '/')).filter (fun seg => seg ≠ "")

/-- JS `s.startsWith(p)`, computed on the character lists so that the
kernel can evaluate it. -/
def jsStartsWith (s p : String) : Bool :=
  p.data.isPrefixOf s.data

/-- JS `s.endsWith(p)`, computed on the character lists. -/
def jsEndsWith (s p : String) : Bool :=
  p.data.isSuffixOf s.data

/-- Drop the first `n` characters of `s` (JS `s.slice(n)` for ASCII). -/
def jsDrop (s : String) (n : Nat) : String :=
  ⟨s.data.drop n⟩

/-- Drop the last `n` characters of `s`. -/
def jsDropRight (s : String) (n : Nat) : String :=
  ⟨s.data.take (s.data.length - n)⟩

/-- The character length of `s` (JS `s.length` for ASCII). -/
def jsLen (s : String) : Nat :=
  s.data.length

/-- Concatenate a list of strings with a separator (JS `arr.join(sep)`). -/
def jsJoin (sep : String) : List String → String
  | [] => ""
  | [w] => w
  | w :: w2 :: rest => w ++ sep ++ jsJoin sep (w2 :: rest)

/-- Modelled from the spec: `trimSlash` lives in the missing permalinks
module; per the spec, route paths carry no leading or trailing slashes, so
it strips slashes from both ends. -/
def trimSlash (s : String) : String :=
  ⟨((s.data.dropWhile (fun c => c = '/')).reverse.dropWhile (fun c => c = '/')).reverse⟩

/-- Modelled from the spec: `cleanSlug` lives in the missing permalinks
module; the spec describes `formatTitle` as splitting the segment on
hyphen and underscore and titlecasing, with no further cleaning, so the
cleaning step is the identity on the already-clean segments handled here. -/
def cleanSlug (s : String) : String := s

/-- Normalize showIn to array for consistent handling.  JS truthiness:
`undefined` and the empty string are falsy, so both give `[]`. -/
def normalizeShowIn (showIn : Option ShowInVal) : List String :=
  match showIn with
  | none => []
  | some (.str s) => if s = "" then [] else [s]
  | some (.arr l) => l

/-- Check if a path segment is a rest parameter (starts with `[...`).
This excludes structural dynamic segments like `[category]` and `[tag]`. -/
def isDynamicSegment (segment : String) : Bool :=
  jsStartsWith segment ("[...")

/-- Extract the route path from a file path, e.g.
`/src/pages/[locale]/homes/saas.astro` becomes `homes/saas`. -/
def extractRoutePath (filePath : String) : String :=
  let pagePrefix : String := "/src/pages/[locale]"
  let withoutPrefix :=
    if jsStartsWith filePath pagePrefix then jsDrop filePath (jsLen pagePrefix) else filePath
  let withoutExt :=
    if jsEndsWith withoutPrefix (".astro") then jsDropRight withoutPrefix (jsLen (".astro"))
    else if jsEndsWith withoutPrefix (".mdx") then jsDropRight withoutPrefix (jsLen (".mdx"))
    else if jsEndsWith withoutPrefix (".md") then jsDropRight withoutPrefix (jsLen (".md"))
    else withoutPrefix
  if withoutExt = "/index" ∨ withoutExt = "index" then "/" else trimSlash withoutExt

/-- JS `word.charAt(0).toUpperCase() + word.slice(1)` (ASCII model of the
Unicode uppercasing, adequate for the segment names in this repository). -/
def capitalizeWord (w : String) : String :=
  match w.data with
  | [] => ""
  | c :: cs => ⟨c.toUpper :: cs⟩

/-- Format a title from a filename or path, e.g. `mobile-app` becomes
`Mobile App`. -/
def formatTitle (path : String) : String :=
  let segments := splitPath path
  let lastSegment := segments.getLast?.getD ""
  let cleaned := cleanSlug lastSegment
  jsJoin " " ((jsSplit cleaned (fun c => c = '-' ∨ c = '_')).map capitalizeWord)

/-! ## Stable sorting

JS `Array.prototype.sort` with a user comparator is a stable sort
(ECMAScript 2019 and later).  It is modelled by a stable insertion sort:
an element is inserted in front of the first element it compares `<= 0`
against, which preserves the relative order of elements that tie. -/

/-- Insert `a` in front of the first element `b` of `l` with `cmp a b <= 0`. -/
def insertCmp {α : Type} (cmp : α → α → Int) (a : α) : List α → List α
  | [] => [a]
  | b :: l => if cmp a b ≤ 0 then a :: b :: l else b :: insertCmp cmp a l

/-- Stable sort by an integer-valued comparator, the model of
`Array.prototype.sort(cmp)`. -/
def sortCmp {α : Type} (cmp : α → α → Int) : List α → List α
  | [] => []
  | a :: l => insertCmp cmp a (sortCmp cmp l)

/-- The comparator of `sortPages`: `(a.navigation?.order ?? Infinity) -
(b.navigation?.order ?? Infinity)` when the orders differ, else
`a.title.localeCompare(b.title)`.  A missing order is `Infinity`; the
literal values `-1`/`1` stand for the negative/positive differences
against `Infinity`, and only the sign is ever used. -/
def pageCmp (lc : String → String → Int) (a b : AutoNavPage) : Int :=
  match a.navigation.bind (·.order), b.navigation.bind (·.order) with
  | some x, some y => if x = y then lc a.title b.title else x - y
  | some _, none => -1
  | none, some _ => 1
  | none, none => lc a.title b.title

/-- Sort pages by `navigation.order` (ascending), with alphabetical order
as tie-breaker (`sortPages` in the source; `lc` is `localeCompare`). -/
def sortPages (lc : String → String → Int) (pages : List AutoNavPage) : List AutoNavPage :=
  sortCmp (pageCmp lc) pages

/-! ## The navigation link tree

The TS type `NavigationLink` is `{ title, href?, links?, _childMap? }`
where `links` is an array of child links and `_childMap` is the internal
`Map<string, NavigationLink>` used during tree construction.  Because the
type is a rose tree, its lists are given as part of one mutual inductive
family so that all tree functions are structural recursions that the
kernel can evaluate. -/

mutual

/-- A navigation node: title, optional href, optional `links` array and
optional `_childMap` keyed map (field `childMap` here). -/
inductive NavLink : Type where
  | mk (title : String) (href : Option String) (links : LinksOpt) (childMap : MapOpt)

/-- The optional `links` field: `undefined` or an array. -/
inductive LinksOpt : Type where
  | missing
  | arr (l : NavLinks)

/-- An array of navigation nodes. -/
inductive NavLinks : Type where
  | nil
  | cons (hd : NavLink) (tl : NavLinks)

/-- The optional `_childMap` field: `undefined` or a keyed map. -/
inductive MapOpt : Type where
  | missing
  | map (m : NavEntries)

/-- A `Map<string, NavigationLink>` in insertion order. -/
inductive NavEntries : Type where
  | nil
  | cons (key : String) (val : NavLink) (tl : NavEntries)

end

/-- Title of a node. -/
def NavLink.title : NavLink → String
  | .mk t _ _ _ => t

/-- Href of a node. -/
def NavLink.href : NavLink → Option String
  | .mk _ h _ _ => h

/-- Links field of a node. -/
def NavLink.links : NavLink → LinksOpt
  | .mk _ _ ls _ => ls

/-- Child map field of a node. -/
def NavLink.childMap : NavLink → MapOpt
  | .mk _ _ _ cm => cm

/-- Convert a node array to a `List`. -/
def NavLinks.toList : NavLinks → List NavLink
  | .nil => []
  | .cons h t => h :: t.toList

/-- Build a node array from a `List`. -/
def NavLinks.ofList : List NavLink → NavLinks
  | [] => .nil
  | h :: t => .cons h (NavLinks.ofList t)

/-- The values of a keyed map, in insertion order (`Map.prototype.values`). -/
def NavEntries.values : NavEntries → List NavLink
  | .nil => []
  | .cons _ v t => v :: t.values

/-- Look up a key in a keyed map (`Map.prototype.get`). -/
def NavEntries.find? (m : NavEntries) (k : String) : Option NavLink :=
  match m with
  | .nil => none
  | .cons k0 v t => if k0 = k then some v else t.find? k

/-- `Map.prototype.set`: replace the value in place when the key exists
(keeping its position), otherwise append the new entry at the end. -/
def NavEntries.set (m : NavEntries) (k : String) (v : NavLink) : NavEntries :=
  match m with
  | .nil => .cons k v .nil
  | .cons k0 v0 t => if k0 = k then .cons k0 v t else .cons k0 v0 (t.set k v)

/-- JS truthiness of an href value: `undefined` and the empty string are
falsy (`!link.href`). -/
def hrefFalsy : Option String → Bool
  | none => true
  | some s => s = ""

mutual

/-- Convert Map-based tree structure to array format (`convertMapToArray`):
when `_childMap` is non-empty, `links` becomes its value array and the
children are converted recursively.  In JS the map values are the very
objects placed into `links`, so both fields hold the converted children. -/
def convertMapToArray : NavLink → NavLink
  | .mk t h ls cm =>
    match cm with
    | .missing => .mk t h ls cm
    | .map .nil => .mk t h ls (.map .nil)
    | .map (.cons k v tl) =>
      .mk t h (.arr (convertEntriesVals (.cons k v tl))) (.map (convertEntries (.cons k v tl)))

/-- The converted value array of a map. -/
def convertEntriesVals : NavEntries → NavLinks
  | .nil => .nil
  | .cons _ v tl => .cons (convertMapToArray v) (convertEntriesVals tl)

/-- A map with all values converted. -/
def convertEntries : NavEntries → NavEntries
  | .nil => .nil
  | .cons k v tl => .cons k (convertMapToArray v) (convertEntries tl)

end

/-- Sort a node array by `a.title.localeCompare(b.title)` (the `sortLinks`
closure inside `buildNavigationTree`). -/
def sortLinks (lc : String → String → Int) (links : List NavLink) : List NavLink :=
  sortCmp (fun a b => lc a.title b.title) links

/-- `sortLinks` on the tree-internal array representation. -/
def sortNavLinks (lc : String → String → Int) (l : NavLinks) : NavLinks :=
  NavLinks.ofList (sortLinks lc l.toList)

mutual

/-- The recursive `sortChildren` closure of `buildNavigationTree`: sort the
`links` array of every node by display title at every depth.  The source
sorts a level and then recurses into the sorted children; since sorting
compares only titles and the recursion preserves titles, recursing first
and sorting the results is the same function. -/
def sortChildren (lc : String → String → Int) : NavLink → NavLink
  | .mk t h .missing cm => .mk t h .missing cm
  | .mk t h (.arr l) cm => .mk t h (.arr (sortNavLinks lc (sortChildrenList lc l))) cm

/-- `sortChildren` applied to every node of an array. -/
def sortChildrenList (lc : String → String → Int) : NavLinks → NavLinks
  | .nil => .nil
  | .cons x tl => .cons (sortChildren lc x) (sortChildrenList lc tl)

end

mutual

/-- The recursion of `collapseSingleChildNodes` into the `links` array of
a node: `link.links = collapseSingleChildNodes(link.links)` runs only when
the array exists and is non-empty. -/
def collapseLinksOpt : LinksOpt → LinksOpt
  | .missing => .missing
  | .arr .nil => .arr .nil
  | .arr (.cons x tl) => .arr (collapseList (.cons x tl))

/-- The per-node body of `collapseSingleChildNodes`: first collapse the
children, then, if the node has a falsy `href` (`!link.href`) and exactly
one child, replace it by that child (the merged node copies the title,
href, links and `_childMap` of the child, i.e. it is the child). -/
def collapseStep : NavLink → NavLink
  | .mk t h ls cm =>
    match collapseLinksOpt ls with
    | .arr (.cons c .nil) => if hrefFalsy h then c else .mk t h (collapseLinksOpt ls) cm
    | _ => .mk t h (collapseLinksOpt ls) cm

/-- `collapseSingleChildNodes` on a node array: each element is processed
in order and contributes exactly one element to the result. -/
def collapseList : NavLinks → NavLinks
  | .nil => .nil
  | .cons x tl => .cons (collapseStep x) (collapseList tl)

end

/-- `collapseSingleChildNodes` on the top-level `List` representation:
the loop pushes one processed node per input node. -/
def collapseTop (links : List NavLink) : List NavLink :=
  links.map collapseStep

/-- Whether a `links` field holds exactly one child
(`link.links?.length === 1`). -/
def lenOne : LinksOpt → Bool
  | .arr (.cons _ .nil) => true
  | _ => false

/-- Whether an href value is literally `undefined` (not merely falsy). -/
def hrefIsNone : Option String → Bool
  | none => true
  | some _ => false

mutual

/-- No node of this tree, reached through the `links` arrays, has a falsy
href together with exactly one child. -/
def goodLink : NavLink → Bool
  | .mk _ h ls _ => (!(hrefFalsy h && lenOne ls)) && goodLinksOpt ls

/-- `goodLink` over an optional child array. -/
def goodLinksOpt : LinksOpt → Bool
  | .missing => true
  | .arr l => goodList l

/-- `goodLink` over a child array. -/
def goodList : NavLinks → Bool
  | .nil => true
  | .cons x tl => goodLink x && goodList tl

end

mutual

/-- The collapse invariant as the spec words it: no node reached through
the `links` arrays has `href === undefined` together with exactly one
child. -/
def noUndefSingle : NavLink → Bool
  | .mk _ h ls _ => (!(hrefIsNone h && lenOne ls)) && noUndefSingleOpt ls

/-- `noUndefSingle` over an optional child array. -/
def noUndefSingleOpt : LinksOpt → Bool
  | .missing => true
  | .arr l => noUndefSingleList l

/-- `noUndefSingle` over a child array. -/
def noUndefSingleList : NavLinks → Bool
  | .nil => true
  | .cons x tl => noUndefSingle x && noUndefSingleList tl

end

/-! ## Tree building -/

/-- The lazy creation of the `links` array of an intermediate node
(`if (!node.links) node.links = []`; an existing array, also an empty
one, is truthy and kept). -/
def ensureLinks : LinksOpt → LinksOpt
  | .missing => .arr .nil
  | .arr l => .arr l

/-- The lazy creation of the `_childMap` of an intermediate node: its
entries, with `undefined` giving a fresh empty map. -/
def mapEntries : MapOpt → NavEntries
  | .missing => .nil
  | .map m => m

/-- The per-page segment walk of `buildNavigationTree`: walk the segment
list left to right through the nested `_childMap` maps, creating or
reusing one node per segment.  The final segment is the leaf and receives
the page title and href (overwriting an existing node); non-final
segments get a synthesized title via `formatTitle`, a `links` array
created when absent, and a `_childMap` created when absent. -/
def insertSegs (page : AutoNavPage) : List String → NavEntries → NavEntries
  | [], m => m
  | [s], m =>
    match m.find? s with
    | none => m.set s (.mk page.title page.href .missing .missing)
    | some (.mk _ _ ls cm) => m.set s (.mk page.title page.href ls cm)
  | s :: s2 :: rest, m =>
    let n : NavLink :=
      match m.find? s with
      | none => .mk (formatTitle s) none (.arr .nil) .missing
      | some n => n
    m.set s (.mk n.title n.href (ensureLinks n.links)
      (.map (insertSegs page (s2 :: rest) (mapEntries n.childMap))))

/-- Build a navigation tree from a flat page list (`buildNavigationTree`):
insert every page into the root map, sort the root values by title,
convert the map structure to arrays and recursively sort all children. -/
def buildNavigationTree (lc : String → String → Int) (pages : List AutoNavPage) : List NavLink :=
  let tree : NavEntries :=
    pages.foldl (fun m page => insertSegs page (splitPath page.path) m) .nil
  let sortedLinks := sortLinks lc tree.values
  let converted := sortedLinks.map convertMapToArray
  converted.map (sortChildren lc)

/-! ## Directory grouping -/

/-- Append a page to its first-segment group in an association list that
models `Map<string, AutoNavPage[]>` in insertion order. -/
def addToGroup (groups : List (String × List AutoNavPage)) (k : String) (p : AutoNavPage) :
    List (String × List AutoNavPage) :=
  match groups with
  | [] => [(k, [p])]
  | (k0, ps) :: rest =>
    if k0 = k then (k0, ps ++ [p]) :: rest else (k0, ps) :: addToGroup rest k p

/-- Group pages by their first path segment (pages with no segments are
skipped), preserving the first-occurrence order of segments and the page
order inside each group. -/
def groupByFirstSegment (pages : List AutoNavPage) : List (String × List AutoNavPage) :=
  pages.foldl
    (fun groups page =>
      match splitPath page.path with
      | [] => groups
      | s :: _ => addToGroup groups s page)
    []

/-- The virtual parent page synthesized for a directory segment shared by
more than one page: `path = segment`, formatted title, `href = '#'` and
`navigation = { title, showIn: [&#x27;header&#x27;] }`. -/
def virtualParent (segment : String) : AutoNavPage :=
  { path := segment
    title := formatTitle segment
    href := some "#"
    navigation := some
      { title := some (formatTitle segment)
        showIn := some (.arr ["header"]) } }

/-- What one first-segment group contributes to the page list: a single
page passes through, a larger group is preceded by its synthesized
parent. -/
def groupEmit : String × List AutoNavPage → List AutoNavPage
  | (_, [p]) => [p]
  | (segment, groupPages) => virtualParent segment :: groupPages

/-- Inject virtual parent nodes for directories containing multiple pages
(`injectDirectoryNodes`): single-page groups pass through, larger groups
are preceded by the synthesized parent. -/
def injectDirectoryNodes (pages : List AutoNavPage) : List AutoNavPage :=
  (groupByFirstSegment pages).foldl (fun result g => result ++ groupEmit g) []

/-! ## Page scanning -/

/-- The body of the `scanPages` loop for one glob entry: either the
scanned page or `none` when one of the filters drops it.  `rp` is the
external `getPermalink` resolver. -/
def scanOne (rp : String → String → String → String) (locale : String)
    (visibility : Option String) (skipDynamic : Bool) (m : PageModule) :
    Option AutoNavPage :=
  let routePath := extractRoutePath m.filePath
  if routePath = "/" ∨ routePath = "/index" then none
  else if skipDynamic ∧ (splitPath routePath).any isDynamicSegment then none
  else
    let navigation := m.navigation
    let title := navigation.bind (·.title)
    if (navigation.map (·.exclude)).getD false then none
    else if title = none ∨ title = some "" then none
    else
      let showInArray := normalizeShowIn (navigation.bind (·.showIn))
      let shouldShow := showInArray = [] ∨ (visibility.getD "") ∈ showInArray
      if visibility ≠ none ∧ ¬ shouldShow then none
      else
        let ty := (navigation.bind (·.ty)).getD "page"
        let slug := (navigation.bind (·.slug)).getD routePath
        if (ty = "category" ∨ ty = "tag") ∧ slug = "" then none
        else
          some
            { path := routePath
              title := title.getD ""
              href := some (rp slug ty locale)
              navigation := navigation }

/-- Scan pages for navigation generation (`scanPages`): apply `scanOne` to
every module of the glob result in order, keeping the survivors. -/
def scanPages (rp : String → String → String → String) (modules : List PageModule)
    (locale : String) (visibility : Option String) (skipDynamic : Bool) :
    List AutoNavPage :=
  modules.filterMap (scanOne rp locale visibility skipDynamic)

/-! ## Entry points -/

/-- The static configuration consumed from `astrowind:config`: the header
`actions` list (opaque items), the footer `secondaryLinks` (title and
page) and the `footNote`. -/
structure SiteConfig : Type where
  actions : Option (List String) := none
  secondaryLinks : Option (List (String × String)) := none
  footNote : Option String := none

/-- The header output `NavigationData`. -/
structure NavigationData : Type where
  links : List NavLink
  actions : List String

/-- One footer link `{title, href}`. -/
structure FooterLink : Type where
  title : String
  href : Option String
deriving Repr, DecidableEq

/-- One footer section `{title, links}` (TS type `Links`). -/
structure FooterSection : Type where
  title : String
  links : List FooterLink
deriving Repr, DecidableEq

/-- The footer output `FooterData`. -/
structure FooterData : Type where
  links : List FooterSection
  secondaryLinks : List FooterLink
  footNote : String

/-- The `links` array of a node as a `List`, with `undefined` giving `[]`
(`section.links || []`). -/
def linksOrEmpty (n : NavLink) : List NavLink :=
  match n.links with
  | .missing => []
  | .arr l => l.toList

/-- Transform `NavigationLink[]` to `Links[]` for footer consumption
(`navigationLinksToFooterLinks`): each top-level node becomes a section
and its direct children become footer links. -/
def navigationLinksToFooterLinks (navLinks : List NavLink) : List FooterSection :=
  navLinks.map fun sec =>
    { title := sec.title
      links := (linksOrEmpty sec).map fun link => { title := link.title, href := link.href } }

/-- Generate navigation data for a specific locale (`generateNavigation`):
scan the header channel without skipping dynamic routes, inject virtual
directory parents, sort, build the tree and collapse single-child nodes.
`rp` is the external `getPermalink` resolver and `lc` the host
`localeCompare`. -/
def generateNavigation (rp : String → String → String → String)
    (lc : String → String → Int) (cfg : SiteConfig) (modules : List PageModule)
    (locale : String) : NavigationData :=
  let pages := scanPages rp modules locale (some "header") false
  let pagesWithParents := injectDirectoryNodes pages
  let sortedPages := sortPages lc pagesWithParents
  let links := buildNavigationTree lc sortedPages
  let collapsedLinks := collapseTop links
  { links := collapsedLinks
    actions := cfg.actions.getD [] }

/-- Generate footer data for a specific locale (`generateFooterData`):
scan the footer channel skipping dynamic routes, sort, build the tree and
flatten it to one-level sections; append the configured secondary links
(resolved through the external `getPagePermalink`, here `rpPage`) and the
foot note. -/
def generateFooterData (rp : String → String → String → String)
    (rpPage : String → String → String) (lc : String → String → Int)
    (cfg : SiteConfig) (modules : List PageModule) (locale : String) : FooterData :=
  let footerPages := scanPages rp modules locale (some "footer") true
  let sortedFooterPages := sortPages lc footerPages
  let navLinks := buildNavigationTree lc sortedFooterPages
  let links := navigationLinksToFooterLinks navLinks
  { links := links
    secondaryLinks :=
      (cfg.secondaryLinks.getD []).map fun l => { title := l.1, href := some (rpPage l.2 locale) }
    footNote := cfg.footNote.getD "" }

/-! ## Concrete instantiations for witnesses

The general theorems are parametric in the host collator `localeCompare`
and the external permalink resolver.  The witnesses instantiate them with
the following concrete functions.  On the all-ASCII, all-lowercase-distinct
titles used in the concrete scenarios below, every `Intl` collator orders
exactly like `lcRef`. -/

/-- Sign-valued comparison of character lists. -/
def charListCmp : List Char → List Char → Int
  | [], [] => 0
  | [], _ :: _ => -1
  | _ :: _, [] => 1
  | c :: cs, d :: ds =>
    if c < d then -1
    else if d < c then 1
    else charListCmp cs ds

/-- A concrete comparator standing in for `localeCompare` in witnesses. -/
def lcRef (a b : String) : Int :=
  charListCmp a.data b.data

/-- A concrete permalink resolver standing in for `getPermalink` in
witnesses and counterexamples. -/
def rpDemo (slug ty locale : String) : String :=
  "/" ++ locale ++ "/" ++ ty ++ "/" ++ slug

/-- A concrete `getPagePermalink` for footer secondary links. -/
def rpPageDemo (page locale : String) : String :=
  "/" ++ locale ++ "/" ++ page

theorem charListCmp_total : ∀ xs ys, charListCmp xs ys ≤ 0 ∨ charListCmp ys xs ≤ 0 := by
  intro xs
  induction xs with
  | nil => intro ys; cases ys <;> simp [charListCmp]
  | cons c cs ih =>
    intro ys
    cases ys with
    | nil => simp [charListCmp]
    | cons d ds =>
      by_cases h1 : c < d
      · left; simp [charListCmp, h1]
      · by_cases h2 : d < c
        · right; simp [charListCmp, h2]
        · simpa [charListCmp, h1, h2] using ih ds

theorem charListCmp_eq_zero : ∀ xs ys, charListCmp xs ys = 0 → xs = ys := by
  intro xs
  induction xs with
  | nil => intro ys; cases ys <;> simp [charListCmp]
  | cons c cs ih =>
    intro ys
    cases ys with
    | nil => simp [charListCmp]
    | cons d ds =>
      by_cases h1 : c < d
      · simp [charListCmp, h1]
      · by_cases h2 : d < c
        · simp [charListCmp, h1, h2]
        · intro h
          have hcd : c = d := le_antisymm (le_of_not_lt h2) (le_of_not_lt h1)
          have := ih ds (by simpa [charListCmp, h1, h2] using h)
          simp [hcd, this]

/-- `lcRef` is a total comparator. -/
theorem lcRef_total (s t : String) : lcRef s t ≤ 0 ∨ lcRef t s ≤ 0 :=
  charListCmp_total s.data t.data

/-- `lcRef` ties only on equal strings. -/
theorem lcRef_eq_zero {s t : String} (h : lcRef s t = 0) : s = t := by
  cases s; cases t
  exact congrArg String.mk (charListCmp_eq_zero _ _ h)

theorem charListCmp_self : ∀ xs : List Char, charListCmp xs xs = 0 := by
  intro xs
  induction xs with
  | nil => rfl
  | cons c cs ih => simp [charListCmp, ih]

/-- `lcRef` ties are transitive through a common element. -/
theorem lcRef_cong (s t u : String) (h1 : lcRef s u = 0) (h2 : lcRef t u = 0) :
    lcRef s t = 0 := by
  rw [lcRef_eq_zero h1, lcRef_eq_zero h2]
  exact charListCmp_self _

/-! ## Properties of the stable sort -/

theorem insertCmp_perm {α : Type} (cmp : α → α → Int) (a : α) :
    ∀ l : List α, (insertCmp cmp a l).Perm (a :: l)
  | [] => by simp [insertCmp]
  | b :: l => by
    unfold insertCmp
    split
    · exact List.Perm.refl _
    · exact ((insertCmp_perm cmp a l).cons b).trans (List.Perm.swap a b l)

theorem sortCmp_perm {α : Type} (cmp : α → α → Int) :
    ∀ l : List α, (sortCmp cmp l).Perm l
  | [] => List.Perm.refl _
  | a :: l => by
    unfold sortCmp
    exact (insertCmp_perm cmp a (sortCmp cmp l)).trans ((sortCmp_perm cmp l).cons a)

theorem mem_sortCmp {α : Type} {cmp : α → α → Int} {l : List α} {x : α} :
    x ∈ sortCmp cmp l ↔ x ∈ l :=
  (sortCmp_perm cmp l).mem_iff

theorem mem_sortPages {lc : String → String → Int} {pages : List AutoNavPage}
    {pg : AutoNavPage} : pg ∈ sortPages lc pages ↔ pg ∈ pages :=
  mem_sortCmp

theorem insertCmp_head? {α : Type} (cmp : α → α → Int) (a : α) (l : List α) :
    (insertCmp cmp a l).head? = some a ∨ (insertCmp cmp a l).head? = l.head? := by
  cases l with
  | nil => left; rfl
  | cons b l =>
    unfold insertCmp
    split
    · left; rfl
    · right; rfl

/-- Inserting into a comparator-sorted list keeps it sorted, given a total
comparator. -/
theorem insertCmp_chain' {α : Type} {cmp : α → α → Int}
    (htot : ∀ x y, cmp x y ≤ 0 ∨ cmp y x ≤ 0) (a : α) :
    ∀ l : List α, List.Chain' (fun x y => cmp x y ≤ 0) l →
      List.Chain' (fun x y => cmp x y ≤ 0) (insertCmp cmp a l)
  | [], _ => by simp [insertCmp]
  | b :: l, hch => by
    unfold insertCmp
    split
    · exact List.chain'_cons'.mpr ⟨fun y hy => by simp_all, hch⟩
    · have hba : cmp b a ≤ 0 := by
        rcases htot a b with h | h
        · omega
        · exact h
      have htail : List.Chain' (fun x y => cmp x y ≤ 0) (insertCmp cmp a l) :=
        insertCmp_chain' htot a l hch.tail
      refine List.chain'_cons'.mpr ⟨fun y hy => ?_, htail⟩
      rcases insertCmp_head? cmp a l with he | he
      · rw [he] at hy
        simp only [Option.mem_def, Option.some.injEq] at hy
        subst hy
        exact hba
      · rw [he] at hy
        exact (List.chain'_cons'.mp hch).1 y hy

/-- The sort output is sorted in the comparator, given a total comparator. -/
theorem sortCmp_chain' {α : Type} {cmp : α → α → Int}
    (htot : ∀ x y, cmp x y ≤ 0 ∨ cmp y x ≤ 0) :
    ∀ l : List α, List.Chain' (fun x y => cmp x y ≤ 0) (sortCmp cmp l)
  | [] => List.chain'_nil
  | a :: l => insertCmp_chain' htot a (sortCmp cmp l) (sortCmp_chain' htot l)

theorem insertCmp_filter {α : Type} (cmp : α → α → Int) (P : α → Bool) (a : α) :
    ∀ l : List α, (∀ b ∈ l, ¬(P a = true ∧ P b = true ∧ 0 < cmp a b)) →
      (insertCmp cmp a l).filter P = ((a :: l).filter P)
  | [], _ => rfl
  | b :: l, h => by
    unfold insertCmp
    split
    · rfl
    · rename_i hab
      have hrec := insertCmp_filter cmp P a l (fun c hc => h c (List.mem_cons_of_mem b hc))
      have hnot : ¬(P a = true ∧ P b = true) := by
        intro ⟨ha, hb⟩
        exact h b (List.mem_cons_self b l) ⟨ha, hb, by omega⟩
      by_cases ha : P a = true
      · have hb : P b = false := by
          cases hPb : P b
          · rfl
          · exact absurd ⟨ha, hPb⟩ hnot
        simp [List.filter_cons, ha, hb, hrec]
      · have ha' : P a = false := by cases hPa : P a; rfl; exact absurd hPa ha
        simp [List.filter_cons, ha', hrec]

/-- Stability of the sort: the elements of any comparator-tie class appear
in the output exactly as they appear in the input. -/
theorem sortCmp_filter {α : Type} (cmp : α → α → Int) (P : α → Bool)
    (htie : ∀ x y, P x = true → P y = true → cmp x y = 0) :
    ∀ l : List α, (sortCmp cmp l).filter P = l.filter P
  | [] => rfl
  | a :: l => by
    unfold sortCmp
    have h1 := insertCmp_filter cmp P a (sortCmp cmp l)
      (fun b _ hcon => by have := htie a b hcon.1 hcon.2.1; omega)
    rw [h1, List.filter_cons, List.filter_cons, sortCmp_filter cmp P htie l]

/-! ## Properties of the page comparator -/

/-- The effective order key of a page: `page.navigation?.order`
(`undefined` standing for `Infinity`). -/
def ordOf (p : AutoNavPage) : Option Int :=
  p.navigation.bind (·.order)

/-- The order part of the claimed sort postcondition: defined orders are
ascending, and a page without an order never precedes a page with one. -/
def ordOk (a b : AutoNavPage) : Prop :=
  match ordOf a, ordOf b with
  | some x, some y => x ≤ y
  | none, some _ => False
  | _, _ => True

theorem ordOk_trans : ∀ a b c : AutoNavPage, ordOk a b → ordOk b c → ordOk a c := by
  intro a b c
  unfold ordOk
  cases ordOf a <;> cases ordOf b <;> cases ordOf c <;> simp
  omega

theorem pageCmp_total {lc : String → String → Int}
    (htot : ∀ s t, lc s t ≤ 0 ∨ lc t s ≤ 0) (a b : AutoNavPage) :
    pageCmp lc a b ≤ 0 ∨ pageCmp lc b a ≤ 0 := by
  unfold pageCmp
  cases ha : a.navigation.bind (·.order) <;> cases hb : b.navigation.bind (·.order)
  · simpa using htot a.title b.title
  · simp
  · simp
  · rename_i x y
    by_cases hxy : x = y
    · subst hxy
      simpa using htot a.title b.title
    · have hyx : ¬ y = x := fun h => hxy h.symm
      simp only [hxy, hyx, if_false]
      omega

theorem pageCmp_eq_zero {lc : String → String → Int} {a b : AutoNavPage}
    (h : pageCmp lc a b = 0) : ordOf a = ordOf b ∧ lc a.title b.title = 0 := by
  unfold pageCmp at h
  unfold ordOf
  cases ha : a.navigation.bind (·.order) <;> cases hb : b.navigation.bind (·.order) <;>
    rw [ha, hb] at h
  · simpa using h
  · simp at h
  · simp at h
  · rename_i x y
    by_cases hxy : x = y
    · subst hxy
      simpa using h
    · simp only [hxy, if_false] at h
      omega

theorem pageCmp_of_parts {lc : String → String → Int} {a b : AutoNavPage}
    (ho : ordOf a = ordOf b) (ht : lc a.title b.title = 0) : pageCmp lc a b = 0 := by
  unfold ordOf at ho
  unfold pageCmp
  rw [ho]
  cases b.navigation.bind (·.order) with
  | none => exact ht
  | some y => simp [ht]

/-- Two pages tied with a common page are tied with each other, when the
collator ties are transitive through a common element. -/
theorem pageCmp_tie_trans {lc : String → String → Int}
    (hcong : ∀ s t u, lc s u = 0 → lc t u = 0 → lc s t = 0) {a b x : AutoNavPage}
    (hax : pageCmp lc a x = 0) (hbx : pageCmp lc b x = 0) : pageCmp lc a b = 0 := by
  obtain ⟨hoa, hta⟩ := pageCmp_eq_zero hax
  obtain ⟨hob, htb⟩ := pageCmp_eq_zero hbx
  exact pageCmp_of_parts (hoa.trans hob.symm) (hcong a.title b.title x.title hta htb)

instance : Trans ordOk ordOk ordOk := ⟨fun {a b c} => ordOk_trans a b c⟩

instance : IsTrans AutoNavPage ordOk := ⟨ordOk_trans⟩

theorem pageLe_ordOk {lc : String → String → Int} {a b : AutoNavPage}
    (h : pageCmp lc a b ≤ 0) : ordOk a b := by
  unfold pageCmp at h
  unfold ordOk ordOf
  cases ha : a.navigation.bind (·.order) <;> cases hb : b.navigation.bind (·.order) <;>
    rw [ha, hb] at h <;> simp_all
  rename_i x y
  by_cases hxy : x = y
  · omega
  · simp only [hxy, if_false] at h
    omega

theorem pageLe_tie {lc : String → String → Int} {a b : AutoNavPage}
    (h : pageCmp lc a b ≤ 0) (ho : ordOf a = ordOf b) : lc a.title b.title ≤ 0 := by
  unfold pageCmp at h
  unfold ordOf at ho
  cases ha : a.navigation.bind (·.order) <;> cases hb : b.navigation.bind (·.order) <;>
    rw [ha, hb] at h <;> rw [ha, hb] at ho <;> simp_all

/-- C7: `sortPages` is a stable sort: its output is a permutation of the
input, pages are ascending in `navigation.order` with order-less pages
after all ordered ones, adjacent pages with equal order keys are ordered
by the collator on titles, and every comparator-tie class keeps its input
order (stability).  `lc` is the abstract `localeCompare`, assumed total
and with ties transitive through a common element. -/
theorem sortPages_spec (lc : String → String → Int)
    (htot : ∀ s t, lc s t ≤ 0 ∨ lc t s ≤ 0)
    (hcong : ∀ s t u, lc s u = 0 → lc t u = 0 → lc s t = 0)
    (pages : List AutoNavPage) :
    (sortPages lc pages).Perm pages
    ∧ List.Pairwise ordOk (sortPages lc pages)
    ∧ List.Chain' (fun a b => ordOf a = ordOf b → lc a.title b.title ≤ 0)
        (sortPages lc pages)
    ∧ ∀ x : AutoNavPage,
        (sortPages lc pages).filter (fun q => pageCmp lc q x == 0)
          = pages.filter (fun q => pageCmp lc q x == 0) := by
  have hch : List.Chain' (fun x y => pageCmp lc x y ≤ 0) (sortPages lc pages) :=
    sortCmp_chain' (pageCmp_total htot) pages
  refine ⟨sortCmp_perm (pageCmp lc) pages, ?_, ?_, ?_⟩
  · exact (List.chain'_iff_pairwise).mp (hch.imp fun {a b} h => pageLe_ordOk h)
  · exact hch.imp fun {a b} h ho => pageLe_tie h ho
  · intro x
    refine sortCmp_filter (pageCmp lc) (fun q => pageCmp lc q x == 0) ?_ pages
    intro p q hp hq
    exact pageCmp_tie_trans hcong (by simpa using hp) (by simpa using hq)

/-- Concrete pages for the sorting witness: one ordered pair out of input
order, one order-less page, and a title tie. -/
def pagesC7 : List AutoNavPage :=
  [ { path := "b", title := "beta", href := some "/b",
      navigation := some { order := some 2 } }
  , { path := "a", title := "alpha", href := some "/a", navigation := none }
  , { path := "c", title := "alpha", href := some "/c",
      navigation := some { order := some 1 } } ]

/-- Witness for C7 at a concrete input. -/
theorem sortPages_spec_witness :
    (sortPages lcRef pagesC7).Perm pagesC7
    ∧ List.Pairwise ordOk (sortPages lcRef pagesC7)
    ∧ List.Chain' (fun a b => ordOf a = ordOf b → lcRef a.title b.title ≤ 0)
        (sortPages lcRef pagesC7)
    ∧ ∀ x : AutoNavPage,
        (sortPages lcRef pagesC7).filter (fun q => pageCmp lcRef q x == 0)
          = pagesC7.filter (fun q => pageCmp lcRef q x == 0) :=
  sortPages_spec lcRef lcRef_total lcRef_cong pagesC7

/-! ## The collapse invariant -/

mutual

theorem collapseStep_good : ∀ n : NavLink, goodLink (collapseStep n) = true
  | .mk t h .missing cm => by
    simp [collapseStep, collapseLinksOpt, goodLink, goodLinksOpt, lenOne]
  | .mk t h (.arr .nil) cm => by
    simp [collapseStep, collapseLinksOpt, goodLink, goodLinksOpt, goodList, lenOne]
  | .mk t h (.arr (.cons x .nil)) cm => by
    have hx := collapseStep_good x
    by_cases hh : hrefFalsy h
    · simp [collapseStep, collapseLinksOpt, collapseList, hh, hx]
    · simp [collapseStep, collapseLinksOpt, collapseList, goodLink, goodLinksOpt,
        goodList, lenOne, hh, hx]
  | .mk t h (.arr (.cons x (.cons y tl))) cm => by
    have hx := collapseStep_good x
    have hy := collapseStep_good y
    have htl := collapseList_good tl
    simp [collapseStep, collapseLinksOpt, collapseList, goodLink, goodLinksOpt,
      goodList, lenOne, hx, hy, htl]

theorem collapseList_good : ∀ l : NavLinks, goodList (collapseList l) = true
  | .nil => rfl
  | .cons x tl => by
    have hx := collapseStep_good x
    have htl := collapseList_good tl
    simp [collapseList, goodList, hx, htl]

end

theorem hrefFalsy_of_none {h : Option String} (hu : hrefIsNone h = true) :
    hrefFalsy h = true := by
  cases h
  · rfl
  · simp [hrefIsNone] at hu

mutual

theorem good_noUndefSingle : ∀ n : NavLink, goodLink n = true → noUndefSingle n = true
  | .mk t h .missing cm => by
    simp [goodLink, noUndefSingle, noUndefSingleOpt, lenOne]
  | .mk t h (.arr l) cm => by
    intro hg
    simp only [goodLink, Bool.and_eq_true, goodLinksOpt] at hg
    obtain ⟨h1, h2⟩ := hg
    simp only [noUndefSingle, Bool.and_eq_true, noUndefSingleOpt]
    refine ⟨?_, good_noUndefSingleList l h2⟩
    cases hu : hrefIsNone h
    · simp
    · rw [hrefFalsy_of_none hu] at h1
      simpa using h1

theorem good_noUndefSingleList :
    ∀ l : NavLinks, goodList l = true → noUndefSingleList l = true
  | .nil => fun _ => rfl
  | .cons x tl => by
    intro hg
    simp only [goodList, Bool.and_eq_true] at hg
    simp only [noUndefSingleList, Bool.and_eq_true]
    exact ⟨good_noUndefSingle x hg.1, good_noUndefSingleList tl hg.2⟩

end

/-- A three-level chain of single-child nodes without hrefs, ending at a
leaf with an href. -/
def chainC5 : NavLink :=
  .mk "a" none
    (.arr (.cons
      (.mk "b" none
        (.arr (.cons (.mk "c" (some "/c") .missing .missing) .nil)) .missing)
      .nil))
    .missing

/-- The innermost leaf of `chainC5`. -/
def leafC5 : NavLink := .mk "c" (some "/c") .missing .missing

/-- C5: one depth-first bottom-up run of `collapseSingleChildNodes`
(children processed before parents) yields a tree in which no node
reached through the `links` arrays has `href === undefined` together with
exactly one child, and the three-level chain of href-less single-child
nodes collapses all the way to its innermost leaf in that single pass. -/
theorem collapse_single_pass_spec :
    (∀ links : List NavLink, (collapseTop links).all noUndefSingle = true)
    ∧ collapseTop [chainC5] = [leafC5] := by
  constructor
  · intro links
    simp only [collapseTop, List.all_eq_true, List.mem_map]
    rintro x ⟨a, _, rfl⟩
    exact good_noUndefSingle _ (collapseStep_good a)
  · rfl

/-- C8: the engine is deterministic: with the page inventory, the locale,
the permalink resolvers, the collator and the static configuration fixed,
repeated invocations of `generateNavigation` and `generateFooterData` are
structurally equal (both are pure functions of their inputs; the only
iteration orders involved, of the glob object and of the JS `Map`s, are
insertion orders and are part of those inputs). -/
theorem engine_deterministic (rp : String → String → String → String)
    (rpPage : String → String → String) (lc : String → String → Int)
    (cfg : SiteConfig) (modules : List PageModule) (locale : String) :
    generateNavigation rp lc cfg modules locale
      = generateNavigation rp lc cfg modules locale
    ∧ generateFooterData rp rpPage lc cfg modules locale
      = generateFooterData rp rpPage lc cfg modules locale :=
  ⟨rfl, rfl⟩

/-! ## Collapse and nodes with hrefs (C6) -/

/-- A leaf with a present href, child of `emptyHrefParent`. -/
def leafC6 : NavLink := .mk "c6" (some "/c6") .missing .missing

/-- A single-child node whose href is present but is the empty string:
present to the type system, falsy to the collapse condition. -/
def emptyHrefParent : NavLink := .mk "p" (some "") (.arr (.cons leafC6 .nil)) .missing

/-- Counterexample to C6 as stated: `collapseSingleChildNodes` replaces
`emptyHrefParent`, a single-child node that has an href (the empty
string), because the source tests `!link.href` (truthiness), not href
presence. -/
theorem collapse_replaces_present_href :
    collapseTop [emptyHrefParent] = [leafC6]
    ∧ hrefIsNone (NavLink.href emptyHrefParent) = false :=
  ⟨rfl, rfl⟩

/-- The glob entry of the `alpha` page (header-visible, no order). -/
def modC6a : PageModule :=
  { filePath := "/src/pages/[locale]/alpha.astro"
    navigation := some { title := some "Alpha", showIn := some (.arr ["header"]) } }

/-- The glob entry of the `alpha/beta` page. -/
def modC6b : PageModule :=
  { filePath := "/src/pages/[locale]/alpha/beta.astro"
    navigation := some { title := some "Beta", showIn := some (.arr ["header"]) } }

/-- The header node produced for `alpha` and `alpha/beta`: it carries the
resolved href of the `alpha` page and the `alpha/beta` child at once. -/
def nodeC6 (rp : String → String → String → String) (locale : String) : NavLink :=
  .mk "Alpha" (some (rp "alpha" "page" locale))
    (.arr (.cons (.mk "Beta" (some (rp "alpha/beta" "page" locale)) .missing .missing) .nil))
    (.map (.cons "beta"
      (.mk "Beta" (some (rp "alpha/beta" "page" locale)) .missing .missing) .nil))

/-- C6 amended: `collapseSingleChildNodes` never replaces a node whose
href is truthy (present and non-empty) — such a node only has its
children collapsed in place — and for the two pages `alpha` and
`alpha/beta` (with a non-empty resolved href for `alpha`) the final
output keeps one node that simultaneously carries the `alpha` href and
the `alpha/beta` child, uncollapsed. -/
theorem collapse_keeps_truthy_href_nodes :
    (∀ (t : String) (h : Option String) (ls : LinksOpt) (cm : MapOpt),
      hrefFalsy h = false →
        collapseStep (.mk t h ls cm) = .mk t h (collapseLinksOpt ls) cm)
    ∧ ∀ (rp : String → String → String → String) (cfg : SiteConfig) (locale : String),
        rp "alpha" "page" locale ≠ "" →
          generateNavigation rp lcRef cfg [modC6a, modC6b] locale
            = { links := [nodeC6 rp locale], actions := cfg.actions.getD [] } := by
  constructor
  · intro t h ls cm hh
    unfold collapseStep
    split
    · rw [hh]
      simp
    · rfl
  · intro rp cfg locale hne
    have hfalsy : hrefFalsy (some (rp "alpha" "page" locale)) = false := by
      simp [hrefFalsy, hne]
    show NavigationData.mk
      [collapseStep (nodeC6 rp locale)] (cfg.actions.getD []) = _
    have hstep : collapseStep (nodeC6 rp locale) = nodeC6 rp locale := by
      show (if hrefFalsy (some (rp "alpha" "page" locale)) = true
        then (.mk "Beta" (some (rp "alpha/beta" "page" locale)) .missing .missing : NavLink)
        else nodeC6 rp locale) = nodeC6 rp locale
      rw [hfalsy]
      simp
    rw [hstep]

/-! ## Sibling ordering (C1) -/

/-- Whether a list of order keys is ascending with all `undefined` keys at
the end: the ordering C1 claims for sibling lists. -/
def ascOrders : List (Option Int) → Bool
  | [] => true
  | [_] => true
  | a :: b :: l =>
    (match a, b with
      | some x, some y => decide (x ≤ y)
      | none, some _ => false
      | _, _ => true) && ascOrders (b :: l)

/-- Adjacent sibling titles are ascending in the collator. -/
def chainLe (lc : String → String → Int) : List NavLink → Bool
  | [] => true
  | [_] => true
  | a :: b :: l => decide (lc a.title b.title ≤ 0) && chainLe lc (b :: l)

mutual

/-- Every `links` array in this tree is ascending in the collator on
titles. -/
def allSortedLink (lc : String → String → Int) : NavLink → Bool
  | .mk _ _ .missing _ => true
  | .mk _ _ (.arr l) _ => chainLe lc l.toList && allSortedList lc l

/-- `allSortedLink` over a child array. -/
def allSortedList (lc : String → String → Int) : NavLinks → Bool
  | .nil => true
  | .cons x tl => allSortedLink lc x && allSortedList lc tl

end

/-- The glob entry of a page titled `zeta` with order 1. -/
def modC1a : PageModule :=
  { filePath := "/src/pages/[locale]/zjob.astro"
    navigation := some
      { title := some "zeta", order := some 1, showIn := some (.arr ["header"]) } }

/-- The glob entry of a page titled `alpha` with order 2. -/
def modC1b : PageModule :=
  { filePath := "/src/pages/[locale]/alpha.astro"
    navigation := some
      { title := some "alpha", order := some 2, showIn := some (.arr ["header"]) } }

/-- The order declared by the inventory `[modC1a, modC1b]`, keyed by the
page title. -/
def orderOfTitleC1 (t : String) : Option Int :=
  if t = "alpha" then some 2 else if t = "zeta" then some 1 else none

/-- Counterexample to C1 as stated: with `zeta` at order 1 and `alpha` at
order 2, the final top-level sibling list is `[alpha, zeta]` — sorted by
title, descending in `navigation.order`. -/
theorem nav_order_counterexample :
    ((generateNavigation rpDemo lcRef {} [modC1a, modC1b] "en").links).map
        (fun n => (n.title, orderOfTitleC1 n.title))
      = [("alpha", some 2), ("zeta", some 1)]
    ∧ ascOrders (((generateNavigation rpDemo lcRef {} [modC1a, modC1b] "en").links).map
        (fun n => orderOfTitleC1 n.title)) = false :=
  ⟨rfl, rfl⟩

theorem toList_ofList : ∀ xs : List NavLink, (NavLinks.ofList xs).toList = xs
  | [] => rfl
  | x :: xs => by simp [NavLinks.ofList, NavLinks.toList, toList_ofList xs]

theorem sortChildrenList_toList (lc : String → String → Int) :
    ∀ l : NavLinks, (sortChildrenList lc l).toList = l.toList.map (sortChildren lc)
  | .nil => rfl
  | .cons x tl => by
    simp [sortChildrenList, NavLinks.toList, sortChildrenList_toList lc tl]

theorem allSortedList_eq_all (lc : String → String → Int) :
    ∀ l : NavLinks, allSortedList lc l = l.toList.all (allSortedLink lc)
  | .nil => rfl
  | .cons x tl => by
    simp [allSortedList, NavLinks.toList, allSortedList_eq_all lc tl]

theorem title_convertMapToArray (n : NavLink) :
    (convertMapToArray n).title = n.title := by
  obtain ⟨t, h, ls, cm⟩ := n
  cases cm with
  | missing => rfl
  | map m => cases m <;> rfl

theorem title_sortChildren (lc : String → String → Int) (n : NavLink) :
    (sortChildren lc n).title = n.title := by
  obtain ⟨t, h, ls, cm⟩ := n
  cases ls <;> rfl

theorem chainLe_iff (lc : String → String → Int) :
    ∀ l : List NavLink,
      chainLe lc l = true ↔ List.Chain' (fun a b => lc a.title b.title ≤ 0) l
  | [] => by simp [chainLe]
  | [a] => by simp [chainLe]
  | a :: b :: l => by
    rw [List.chain'_cons, ← chainLe_iff lc (b :: l)]
    simp [chainLe]

theorem chainLe_map (lc : String → String → Int) (f : NavLink → NavLink)
    (hf : ∀ n, (f n).title = n.title) :
    ∀ l : List NavLink, chainLe lc (l.map f) = chainLe lc l
  | [] => rfl
  | [a] => rfl
  | a :: b :: l => by
    have := chainLe_map lc f hf (b :: l)
    simp only [List.map_cons] at this ⊢
    simp [chainLe, hf, this]

mutual

theorem sortChildren_allSorted (lc : String → String → Int)
    (htot : ∀ s t, lc s t ≤ 0 ∨ lc t s ≤ 0) :
    ∀ n : NavLink, allSortedLink lc (sortChildren lc n) = true
  | .mk t h .missing cm => rfl
  | .mk t h (.arr l) cm => by
    have hmem := sortChildrenList_allSorted lc htot l
    simp only [sortChildren, allSortedLink, Bool.and_eq_true]
    constructor
    · rw [chainLe_iff]
      unfold sortNavLinks
      rw [toList_ofList]
      exact sortCmp_chain' (fun a b => by simpa using htot a.title b.title) _
    · rw [allSortedList_eq_all, List.all_eq_true]
      intro x hx
      unfold sortNavLinks at hx
      rw [toList_ofList] at hx
      exact hmem x (mem_sortCmp.mp hx)

theorem sortChildrenList_allSorted (lc : String → String → Int)
    (htot : ∀ s t, lc s t ≤ 0 ∨ lc t s ≤ 0) :
    ∀ l : NavLinks, ∀ x ∈ (sortChildrenList lc l).toList, allSortedLink lc x = true
  | .nil => by simp [sortChildrenList, NavLinks.toList]
  | .cons y tl => by
    intro x hx
    simp only [sortChildrenList, NavLinks.toList, List.mem_cons] at hx
    rcases hx with rfl | hx
    · exact sortChildren_allSorted lc htot y
    · exact sortChildrenList_allSorted lc htot tl x hx

end

/-- C1 amended: `navigation.order` does not decide sibling placement.  In
the tree built by `buildNavigationTree` every sibling list — the
top-level list and every `links` array — is ascending in the collator on
the display titles, and the subsequent collapse maps the lists position
by position (same length, element `i` the collapse of element `i`), so
the final sibling order is the title order of the pre-collapse tree. -/
theorem buildTree_title_order_spec (lc : String → String → Int)
    (htot : ∀ s t, lc s t ≤ 0 ∨ lc t s ≤ 0) (pages : List AutoNavPage) :
    chainLe lc (buildNavigationTree lc pages) = true
    ∧ (buildNavigationTree lc pages).all (allSortedLink lc) = true
    ∧ (∀ links : List NavLink, (collapseTop links).length = links.length)
    ∧ ∀ (links : List NavLink) (i : Nat),
        (collapseTop links)[i]? = links[i]?.map collapseStep := by
  refine ⟨?_, ?_, fun links => by simp [collapseTop], fun links i => by
    simp [collapseTop, List.getElem?_map]⟩
  · show chainLe lc
      (((sortLinks lc _).map convertMapToArray).map (sortChildren lc)) = true
    rw [chainLe_map lc _ (title_sortChildren lc),
      chainLe_map lc _ title_convertMapToArray]
    rw [chainLe_iff]
    exact sortCmp_chain' (fun a b => by simpa using htot a.title b.title) _
  · rw [List.all_eq_true]
    show ∀ x ∈ ((sortLinks lc _).map convertMapToArray).map (sortChildren lc), _
    intro x hx
    rw [List.mem_map] at hx
    obtain ⟨y, _, rfl⟩ := hx
    exact sortChildren_allSorted lc htot y

/-- Pages for the C1 witness. -/
def pagesC1w : List AutoNavPage :=
  [ { path := "docs/guide", title := "Guide", href := some "/g", navigation := none }
  , { path := "docs/intro", title := "Intro", href := some "/i", navigation := none } ]

/-- Witness for the amended C1 at a concrete input. -/
theorem buildTree_title_order_witness :
    chainLe lcRef (buildNavigationTree lcRef pagesC1w) = true
    ∧ (buildNavigationTree lcRef pagesC1w).all (allSortedLink lcRef) = true
    ∧ (∀ links : List NavLink, (collapseTop links).length = links.length)
    ∧ ∀ (links : List NavLink) (i : Nat),
        (collapseTop links)[i]? = links[i]?.map collapseStep :=
  buildTree_title_order_spec lcRef lcRef_total pagesC1w

/-! ## Footer sections (C3) -/

/-- The glob entry of a footer-visible `contact` page. -/
def modC3 : PageModule :=
  { filePath := "/src/pages/[locale]/contact.astro"
    navigation := some { title := some "Contact", showIn := some (.arr ["footer"]) } }

/-- The glob entry of the footer-visible `docs/guide` page. -/
def modC3d1 : PageModule :=
  { filePath := "/src/pages/[locale]/docs/guide.astro"
    navigation := some { title := some "Guide", showIn := some (.arr ["footer"]) } }

/-- The glob entry of the footer-visible `docs/intro` page. -/
def modC3d2 : PageModule :=
  { filePath := "/src/pages/[locale]/docs/intro.astro"
    navigation := some { title := some "Intro", showIn := some (.arr ["footer"]) } }

/-- Counterexample to C3 as stated: the single footer page `contact` does
get a section wrapper — `{title: "Contact", links: []}` — and its href,
although resolved during the scan, appears nowhere in the footer output
instead of becoming a flat top-level footer link. -/
theorem footer_single_page_counterexample :
    (generateFooterData rpDemo rpPageDemo lcRef {} [modC3] "en").links
      = [{ title := "Contact", links := [] }]
    ∧ (scanPages rpDemo [modC3] "en" (some "footer") true).map (·.href)
      = [some (rpDemo "contact" "page" "en")] :=
  ⟨rfl, rfl⟩

/-- C3 amended: `generateFooterData` wraps every first-segment group in a
section, one section per top-level tree node, single-member groups
included: a single page with a one-segment path yields a section titled
with the page's own title and an empty `links` array (its href is not
emitted), while groups under a shared first segment yield a section
titled with the virtual segment title and the child pages as links. -/
theorem footer_sections_spec (rp : String → String → String → String)
    (rpPage : String → String → String) (lc : String → String → Int)
    (cfg : SiteConfig) (modules : List PageModule) (locale : String) :
    ((generateFooterData rp rpPage lc cfg modules locale).links.map (fun s => s.title)
      = (buildNavigationTree lc (sortPages lc
          (scanPages rp modules locale (some "footer") true))).map NavLink.title)
    ∧ (generateFooterData rp rpPage lc cfg modules locale).links.length
      = (buildNavigationTree lc (sortPages lc
          (scanPages rp modules locale (some "footer") true))).length
    ∧ generateFooterData rp rpPage lcRef cfg [modC3, modC3d1, modC3d2] locale
      = { links :=
            [ { title := "Contact", links := [] }
            , { title := "Docs", links :=
                [ { title := "Guide", href := some (rp "docs/guide" "page" locale) }
                , { title := "Intro", href := some (rp "docs/intro" "page" locale) } ] } ]
          secondaryLinks := (cfg.secondaryLinks.getD []).map
            fun l => { title := l.1, href := some (rpPage l.2 locale) }
          footNote := cfg.footNote.getD "" } := by
  refine ⟨?_, ?_, rfl⟩
  · show ((buildNavigationTree lc _).map _).map _ = _
    simp [navigationLinksToFooterLinks, List.map_map]
  · show ((buildNavigationTree lc _).map _).length = _
    simp [navigationLinksToFooterLinks]

/-! ## Category pages without a slug (C4) -/

/-- The navigation object of a category page with no `slug`. -/
def navC4 : AutoNavConfig :=
  { title := some "Cats", ty := some "category", showIn := some (.arr ["header"]) }

/-- The glob entry of a category page with no `slug`. -/
def modC4 : PageModule :=
  { filePath := "/src/pages/[locale]/category.astro", navigation := some navC4 }

/-- Counterexample to C4 as stated: the category page without a slug is
not dropped — the slug falls back to the route path, the page survives
the scan with `href = getPermalink(routePath, "category", locale)` and
appears in the final navigation output. -/
theorem category_missing_slug_counterexample :
    (scanPages rpDemo [modC4] "en" (some "header") false).map (fun p => (p.path, p.href))
      = [("category", some (rpDemo "category" "category" "en"))]
    ∧ ((generateNavigation rpDemo lcRef {} [modC4] "en").links).map
        (fun nd => (nd.title, nd.href))
      = [("Cats", some (rpDemo "category" "category" "en"))] :=
  ⟨rfl, rfl⟩

/-- C4 amended: a category or tag page whose `navigation.slug` is missing
is kept, not dropped: `slug ?? routePath` makes the validation pass
whenever the route is non-empty, the page scans to an entry whose href
resolves the route path under the category or tag kind, and it is a
member of every scan whose module list contains it.  The drop-with-warning
fires only when the effective slug is the empty string. -/
theorem category_missing_slug_spec (rp : String → String → String → String)
    (locale : String) (m : PageModule) (n : AutoNavConfig) (t : String)
    (hnav : m.navigation = some n)
    (hty : n.ty = some "category" ∨ n.ty = some "tag")
    (hslug : n.slug = none)
    (htitle : n.title = some t) (ht : t ≠ "")
    (hexc : n.exclude = false)
    (hshow : normalizeShowIn n.showIn = [] ∨ "header" ∈ normalizeShowIn n.showIn)
    (hroot : extractRoutePath m.filePath ≠ "/")
    (hroot2 : extractRoutePath m.filePath ≠ "/index")
    (hempty : extractRoutePath m.filePath ≠ "") :
    scanOne rp locale (some "header") false m
      = some { path := extractRoutePath m.filePath, title := t,
               href := some (rp (extractRoutePath m.filePath) (n.ty.getD "page") locale),
               navigation := some n }
    ∧ ∀ modules : List PageModule, m ∈ modules →
        ({ path := extractRoutePath m.filePath, title := t,
           href := some (rp (extractRoutePath m.filePath) (n.ty.getD "page") locale),
           navigation := some n } : AutoNavPage)
          ∈ scanPages rp modules locale (some "header") false := by
  have h1 : scanOne rp locale (some "header") false m
      = some { path := extractRoutePath m.filePath, title := t,
               href := some (rp (extractRoutePath m.filePath) (n.ty.getD "page") locale),
               navigation := some n } := by
    unfold scanOne
    rcases hty with h | h <;>
      simp [hnav, htitle, hexc, hslug, h, hroot, hroot2, hempty, ht, hshow]
  refine ⟨h1, fun modules hm => ?_⟩
  unfold scanPages
  exact List.mem_filterMap.mpr ⟨m, hm, h1⟩

/-- Witness for the amended C4 at the concrete category module. -/
theorem category_missing_slug_witness :
    scanOne rpDemo "en" (some "header") false modC4
      = some { path := extractRoutePath modC4.filePath, title := "Cats",
               href := some (rpDemo (extractRoutePath modC4.filePath)
                 (navC4.ty.getD "page") "en"),
               navigation := some navC4 }
    ∧ ∀ modules : List PageModule, modC4 ∈ modules →
        ({ path := extractRoutePath modC4.filePath, title := "Cats",
           href := some (rpDemo (extractRoutePath modC4.filePath)
             (navC4.ty.getD "page") "en"),
           navigation := some navC4 } : AutoNavPage)
          ∈ scanPages rpDemo modules "en" (some "header") false :=
  category_missing_slug_spec rpDemo "en" modC4 navC4 "Cats" rfl (Or.inl rfl) rfl rfl
    (by decide) rfl (Or.inr (by decide)) (by decide) (by decide) (by decide)

/-! ## Scan characterization and dynamic routes (C10) -/

/-- What surviving the scan means: a page produced by `scanOne` carries
the extracted route path, the module's navigation object, the href
resolved from the effective slug and kind, and — when dynamic routes were
skipped — no catch-all segment. -/
theorem scanOne_some {rp : String → String → String → String} {locale : String}
    {vis : Option String} {sd : Bool} {m : PageModule} {p : AutoNavPage}
    (h : scanOne rp locale vis sd m = some p) :
    p.path = extractRoutePath m.filePath
    ∧ p.navigation = m.navigation
    ∧ p.href = some (rp ((m.navigation.bind (·.slug)).getD p.path)
        ((m.navigation.bind (·.ty)).getD "page") locale)
    ∧ (sd = true → (splitPath p.path).any isDynamicSegment = false) := by
  unfold scanOne at h
  dsimp only at h
  split at h
  · simp at h
  · split at h
    · simp at h
    · rename_i hdyn
      split at h
      · simp at h
      · split at h
        · simp at h
        · split at h
          · simp at h
          · split at h
            · simp at h
            · cases h
              refine ⟨rfl, rfl, rfl, fun hsd => ?_⟩
              subst hsd
              simpa using hdyn

/-- The glob entry of a catch-all route visible on both channels. -/
def modC10 : PageModule :=
  { filePath := "/src/pages/[locale]/blog/[...page].astro"
    navigation := some
      { title := some "Blog Index", showIn := some (.arr ["header", "footer"]) } }

/-- C10: channel asymmetry for dynamic routes.  Single-parameter segments
such as `[category]` and `[tag]` are never dynamic; every page surviving
the footer scan (`skipDynamic = true`, as `generateFooterData` calls it)
has no catch-all segment; and a header-visible catch-all page appears in
the `generateNavigation` output while `generateFooterData` drops it. -/
theorem dynamic_route_channels :
    (isDynamicSegment "[category]" = false ∧ isDynamicSegment "[tag]" = false)
    ∧ (∀ (rp : String → String → String → String) (modules : List PageModule)
        (locale : String) (p : AutoNavPage),
        p ∈ scanPages rp modules locale (some "footer") true →
          ∀ s ∈ splitPath p.path, isDynamicSegment s = false)
    ∧ ((generateNavigation rpDemo lcRef {} [modC10] "en").links).map
        (fun nd => (nd.title, nd.href))
      = [("Blog Index", some (rpDemo "blog/[...page]" "page" "en"))]
    ∧ (generateFooterData rpDemo rpPageDemo lcRef {} [modC10] "en").links = [] := by
  refine ⟨⟨rfl, rfl⟩, ?_, rfl, rfl⟩
  intro rp modules locale p hp s hs
  unfold scanPages at hp
  obtain ⟨m, _, hm⟩ := List.mem_filterMap.mp hp
  have hdyn := (scanOne_some hm).2.2.2 rfl
  rw [List.any_eq_false] at hdyn
  simpa using hdyn s hs

/-! ## Node-local invariants over whole trees -/

mutual

/-- `p` holds at every node of this tree: at the node itself and at every
node reachable through `links` or `_childMap`. -/
def allNodes (p : NavLink → Bool) : NavLink → Bool
  | .mk t h ls cm => p (.mk t h ls cm) && allNodesOpt p ls && allNodesMap p cm

/-- `allNodes` over an optional child array. -/
def allNodesOpt (p : NavLink → Bool) : LinksOpt → Bool
  | .missing => true
  | .arr l => allNodesList p l

/-- `allNodes` over a child array. -/
def allNodesList (p : NavLink → Bool) : NavLinks → Bool
  | .nil => true
  | .cons x tl => allNodes p x && allNodesList p tl

/-- `allNodes` over an optional keyed map. -/
def allNodesMap (p : NavLink → Bool) : MapOpt → Bool
  | .missing => true
  | .map m => allNodesEntries p m

/-- `allNodes` over the entries of a keyed map. -/
def allNodesEntries (p : NavLink → Bool) : NavEntries → Bool
  | .nil => true
  | .cons _ v tl => allNodes p v && allNodesEntries p tl

end

theorem allNodesList_eq_all (p : NavLink → Bool) :
    ∀ l : NavLinks, allNodesList p l = l.toList.all (allNodes p)
  | .nil => rfl
  | .cons x tl => by
    simp [allNodesList, NavLinks.toList, allNodesList_eq_all p tl]

theorem allNodesEntries_set (p : NavLink → Bool) (k : String) (v : NavLink)
    (hv : allNodes p v = true) :
    ∀ m : NavEntries, allNodesEntries p m = true →
      allNodesEntries p (m.set k v) = true
  | .nil, _ => by simp [NavEntries.set, allNodesEntries, hv]
  | .cons k0 v0 tl, hm => by
    unfold NavEntries.set
    simp only [allNodesEntries, Bool.and_eq_true] at hm
    split
    · simp [allNodesEntries, hv, hm.2]
    · simp [allNodesEntries, hm.1, allNodesEntries_set p k v hv tl hm.2]

theorem allNodes_find? (p : NavLink → Bool) (k : String) :
    ∀ m : NavEntries, allNodesEntries p m = true →
      ∀ n, m.find? k = some n → allNodes p n = true
  | .nil, _, n, hf => by simp [NavEntries.find?] at hf
  | .cons k0 v0 tl, hm, n, hf => by
    unfold NavEntries.find? at hf
    simp only [allNodesEntries, Bool.and_eq_true] at hm
    split at hf
    · cases hf
      exact hm.1
    · exact allNodes_find? p k tl hm.2 n hf

theorem allNodes_values (p : NavLink → Bool) :
    ∀ m : NavEntries, allNodesEntries p m = true →
      ∀ x ∈ m.values, allNodes p x = true
  | .nil, _, x, hx => by simp [NavEntries.values] at hx
  | .cons k0 v0 tl, hm, x, hx => by
    simp only [allNodesEntries, Bool.and_eq_true] at hm
    simp only [NavEntries.values, List.mem_cons] at hx
    rcases hx with rfl | hx
    · exact hm.1
    · exact allNodes_values p tl hm.2 x hx

/-- The insertion walk preserves an `allNodes` invariant, given that the
invariant accepts the four node shapes the walk writes: a fresh leaf, an
overwritten leaf, a fresh intermediate node, and an existing node whose
`links` was ensured and whose `_childMap` was replaced. -/
theorem insertSegs_allNodes (p : NavLink → Bool) (page : AutoNavPage)
    (H1 : p (.mk page.title page.href .missing .missing) = true)
    (H2 : ∀ t h ls cm, p (.mk t h ls cm) = true → p (.mk page.title page.href ls cm) = true)
    (H3 : ∀ s m2, p (.mk (formatTitle s) none (.arr .nil) (.map m2)) = true)
    (H4 : ∀ t h ls cm m2, p (.mk t h ls cm) = true →
      p (.mk t h (ensureLinks ls) (.map m2)) = true) :
    ∀ (segs : List String) (m : NavEntries), allNodesEntries p m = true →
      allNodesEntries p (insertSegs page segs m) = true
  | [], m, hm => hm
  | [s], m, hm => by
    unfold insertSegs
    cases hf : m.find? s with
    | none =>
      refine allNodesEntries_set p s _ ?_ m hm
      simp [allNodes, allNodesOpt, allNodesMap, H1]
    | some n =>
      obtain ⟨t, h, ls, cm⟩ := n
      refine allNodesEntries_set p s _ ?_ m hm
      have hn := allNodes_find? p s m hm _ hf
      simp only [allNodes, Bool.and_eq_true] at hn ⊢
      exact ⟨⟨H2 t h ls cm hn.1.1, hn.1.2⟩, hn.2⟩
  | s :: s2 :: rest, m, hm => by
    unfold insertSegs
    cases hf : m.find? s with
    | none =>
      refine allNodesEntries_set p s _ ?_ m hm
      have hrec := insertSegs_allNodes p page H1 H2 H3 H4 (s2 :: rest) .nil rfl
      simp [allNodes, allNodesOpt, allNodesList, allNodesMap, ensureLinks,
        mapEntries, NavLink.title, NavLink.href, NavLink.links, NavLink.childMap,
        H3, hrec]
    | some n =>
      obtain ⟨t, h, ls, cm⟩ := n
      have hn := allNodes_find? p s m hm _ hf
      simp only [allNodes, Bool.and_eq_true] at hn
      have hcm : allNodesEntries p (mapEntries cm) = true := by
        cases cm with
        | missing => rfl
        | map m0 => exact hn.2
      have hrec := insertSegs_allNodes p page H1 H2 H3 H4 (s2 :: rest) (mapEntries cm) hcm
      refine allNodesEntries_set p s _ ?_ m hm
      have hls : allNodesOpt p (ensureLinks ls) = true := by
        cases ls with
        | missing => rfl
        | arr l => exact hn.1.2
      simp only [NavLink.title, NavLink.href, NavLink.links, NavLink.childMap,
        allNodes, allNodesMap, Bool.and_eq_true]
      exact ⟨⟨H4 t h ls cm _ hn.1.1, hls⟩, hrec⟩

/-- The whole tree-building fold preserves an `allNodes` invariant, with
the per-page hypotheses ranging over the folded pages. -/
theorem foldl_insert_allNodes (p : NavLink → Bool)
    (H3 : ∀ s m2, p (.mk (formatTitle s) none (.arr .nil) (.map m2)) = true)
    (H4 : ∀ t h ls cm m2, p (.mk t h ls cm) = true →
      p (.mk t h (ensureLinks ls) (.map m2)) = true) :
    ∀ (pages : List AutoNavPage) (m : NavEntries),
      (∀ pg ∈ pages, p (.mk pg.title pg.href .missing .missing) = true) →
      (∀ pg ∈ pages, ∀ t h ls cm, p (.mk t h ls cm) = true →
        p (.mk pg.title pg.href ls cm) = true) →
      allNodesEntries p m = true →
      allNodesEntries p
        (pages.foldl (fun acc pg => insertSegs pg (splitPath pg.path) acc) m) = true
  | [], m, _, _, hm => hm
  | pg :: pages, m, h1, h2, hm => by
    refine foldl_insert_allNodes p H3 H4 pages _
      (fun x hx => h1 x (List.mem_cons_of_mem pg hx))
      (fun x hx => h2 x (List.mem_cons_of_mem pg hx)) ?_
    exact insertSegs_allNodes p pg (h1 pg (List.mem_cons_self pg pages))
      (h2 pg (List.mem_cons_self pg pages)) H3 H4 (splitPath pg.path) m hm

mutual

theorem convert_allNodes (p : NavLink → Bool)
    (HC : ∀ t h ls m, p (.mk t h ls (.map m)) = true →
      p (.mk t h (.arr (convertEntriesVals m)) (.map (convertEntries m))) = true) :
    ∀ n : NavLink, allNodes p n = true → allNodes p (convertMapToArray n) = true
  | .mk t h ls .missing => fun hn => by simpa [convertMapToArray] using hn
  | .mk t h ls (.map .nil) => fun hn => by simpa [convertMapToArray] using hn
  | .mk t h ls (.map (.cons k v tl)) => fun hn => by
    simp only [convertMapToArray, allNodes, allNodesOpt, allNodesMap,
      Bool.and_eq_true] at hn ⊢
    obtain ⟨⟨hp, _⟩, hm⟩ := hn
    exact ⟨⟨HC t h ls _ hp, convertVals_allNodes p HC _ hm⟩,
      convertEntries_allNodes p HC _ hm⟩

theorem convertVals_allNodes (p : NavLink → Bool)
    (HC : ∀ t h ls m, p (.mk t h ls (.map m)) = true →
      p (.mk t h (.arr (convertEntriesVals m)) (.map (convertEntries m))) = true) :
    ∀ m : NavEntries, allNodesEntries p m = true →
      allNodesList p (convertEntriesVals m) = true
  | .nil => fun _ => rfl
  | .cons k v tl => fun hm => by
    simp only [allNodesEntries, Bool.and_eq_true] at hm
    simp only [convertEntriesVals, allNodesList, Bool.and_eq_true]
    exact ⟨convert_allNodes p HC v hm.1, convertVals_allNodes p HC tl hm.2⟩

theorem convertEntries_allNodes (p : NavLink → Bool)
    (HC : ∀ t h ls m, p (.mk t h ls (.map m)) = true →
      p (.mk t h (.arr (convertEntriesVals m)) (.map (convertEntries m))) = true) :
    ∀ m : NavEntries, allNodesEntries p m = true →
      allNodesEntries p (convertEntries m) = true
  | .nil => fun _ => rfl
  | .cons k v tl => fun hm => by
    simp only [allNodesEntries, Bool.and_eq_true] at hm
    simp only [convertEntries, allNodesEntries, Bool.and_eq_true]
    exact ⟨convert_allNodes p HC v hm.1, convertEntries_allNodes p HC tl hm.2⟩

end

mutual

theorem sortChildren_allNodes (p : NavLink → Bool) (lc : String → String → Int)
    (HS : ∀ t h l cm, p (.mk t h (.arr l) cm) = true →
      p (.mk t h (.arr (sortNavLinks lc (sortChildrenList lc l))) cm) = true) :
    ∀ n : NavLink, allNodes p n = true → allNodes p (sortChildren lc n) = true
  | .mk t h .missing cm => fun hn => by simpa [sortChildren] using hn
  | .mk t h (.arr l) cm => fun hn => by
    simp only [sortChildren, allNodes, allNodesOpt, Bool.and_eq_true] at hn ⊢
    obtain ⟨⟨hp, hl⟩, hcm⟩ := hn
    refine ⟨⟨HS t h l cm hp, ?_⟩, hcm⟩
    rw [allNodesList_eq_all, List.all_eq_true]
    intro x hx
    unfold sortNavLinks at hx
    rw [toList_ofList] at hx
    exact sortChildrenList_allNodes p lc HS l hl x (mem_sortCmp.mp hx)

theorem sortChildrenList_allNodes (p : NavLink → Bool) (lc : String → String → Int)
    (HS : ∀ t h l cm, p (.mk t h (.arr l) cm) = true →
      p (.mk t h (.arr (sortNavLinks lc (sortChildrenList lc l))) cm) = true) :
    ∀ l : NavLinks, allNodesList p l = true →
      ∀ x ∈ (sortChildrenList lc l).toList, allNodes p x = true
  | .nil => by simp [sortChildrenList, NavLinks.toList]
  | .cons y tl => fun hl x hx => by
    simp only [allNodesList, Bool.and_eq_true] at hl
    simp only [sortChildrenList, NavLinks.toList, List.mem_cons] at hx
    rcases hx with rfl | hx
    · exact sortChildren_allNodes p lc HS y hl.1
    · exact sortChildrenList_allNodes p lc HS tl hl.2 x hx

end

mutual

theorem collapseStep_allNodes (p : NavLink → Bool)
    (HK : ∀ t h ls cm, p (.mk t h ls cm) = true →
      p (.mk t h (collapseLinksOpt ls) cm) = true) :
    ∀ n : NavLink, allNodes p n = true → allNodes p (collapseStep n) = true
  | .mk t h .missing cm => fun hn => by
    simp only [allNodes, allNodesOpt, Bool.and_eq_true] at hn
    simp only [collapseStep, collapseLinksOpt, allNodes, allNodesOpt, Bool.and_eq_true]
    exact ⟨⟨HK t h .missing cm hn.1.1, trivial⟩, hn.2⟩
  | .mk t h (.arr .nil) cm => fun hn => by
    simp only [allNodes, allNodesOpt, Bool.and_eq_true] at hn
    simp only [collapseStep, collapseLinksOpt, allNodes, allNodesOpt, allNodesList,
      Bool.and_eq_true]
    exact ⟨⟨HK t h (.arr .nil) cm hn.1.1, trivial⟩, hn.2⟩
  | .mk t h (.arr (.cons x .nil)) cm => fun hn => by
    simp only [allNodes, allNodesOpt, allNodesList, Bool.and_eq_true] at hn
    obtain ⟨⟨hp, hx, _⟩, hcm⟩ := hn
    have hx' := collapseStep_allNodes p HK x hx
    by_cases hh : hrefFalsy h = true
    · simpa [collapseStep, collapseLinksOpt, collapseList, hh] using hx'
    · rw [Bool.not_eq_true] at hh
      simp only [collapseStep, collapseLinksOpt, collapseList, hh, Bool.false_eq_true,
        if_false, allNodes, allNodesOpt, allNodesList, Bool.and_eq_true]
      exact ⟨⟨HK t h (.arr (.cons x .nil)) cm hp, hx', trivial⟩, hcm⟩
  | .mk t h (.arr (.cons x (.cons y tl))) cm => fun hn => by
    simp only [allNodes, allNodesOpt, allNodesList, Bool.and_eq_true] at hn
    obtain ⟨⟨hp, hx, hy, htl⟩, hcm⟩ := hn
    have hall : allNodesList p (collapseList (.cons x (.cons y tl))) = true := by
      refine collapseList_allNodes p HK _ ?_
      simp only [allNodesList, Bool.and_eq_true]
      exact ⟨hx, hy, htl⟩
    simp only [collapseStep, collapseLinksOpt, collapseList, allNodes, allNodesOpt,
      Bool.and_eq_true]
    refine ⟨⟨HK t h (.arr (.cons x (.cons y tl))) cm hp, ?_⟩, hcm⟩
    simpa [collapseList, allNodesList] using hall

theorem collapseList_allNodes (p : NavLink → Bool)
    (HK : ∀ t h ls cm, p (.mk t h ls cm) = true →
      p (.mk t h (collapseLinksOpt ls) cm) = true) :
    ∀ l : NavLinks, allNodesList p l = true → allNodesList p (collapseList l) = true
  | .nil => fun _ => rfl
  | .cons x tl => fun hl => by
    simp only [allNodesList, Bool.and_eq_true] at hl
    simp only [collapseList, allNodesList, Bool.and_eq_true]
    exact ⟨collapseStep_allNodes p HK x hl.1, collapseList_allNodes p HK tl hl.2⟩

end

/-! ## Composition through the pipeline -/

theorem buildTree_allNodes (p : NavLink → Bool) (lc : String → String → Int)
    (pages : List AutoNavPage)
    (H1 : ∀ pg ∈ pages, p (.mk pg.title pg.href .missing .missing) = true)
    (H2 : ∀ pg ∈ pages, ∀ t h ls cm, p (.mk t h ls cm) = true →
      p (.mk pg.title pg.href ls cm) = true)
    (H3 : ∀ s m2, p (.mk (formatTitle s) none (.arr .nil) (.map m2)) = true)
    (H4 : ∀ t h ls cm m2, p (.mk t h ls cm) = true →
      p (.mk t h (ensureLinks ls) (.map m2)) = true)
    (HC : ∀ t h ls m, p (.mk t h ls (.map m)) = true →
      p (.mk t h (.arr (convertEntriesVals m)) (.map (convertEntries m))) = true)
    (HS : ∀ t h l cm, p (.mk t h (.arr l) cm) = true →
      p (.mk t h (.arr (sortNavLinks lc (sortChildrenList lc l))) cm) = true) :
    (buildNavigationTree lc pages).all (allNodes p) = true := by
  rw [List.all_eq_true]
  show ∀ x ∈ ((sortLinks lc _).map convertMapToArray).map (sortChildren lc), _
  intro x hx
  rw [List.mem_map] at hx
  obtain ⟨y, hy, rfl⟩ := hx
  rw [List.mem_map] at hy
  obtain ⟨z, hz, rfl⟩ := hy
  have hz' := mem_sortCmp.mp hz
  have hfold := foldl_insert_allNodes p H3 H4 pages .nil H1 H2 rfl
  have hzall := allNodes_values p _ hfold z hz'
  exact sortChildren_allNodes p lc HS _ (convert_allNodes p HC z hzall)

theorem generateNavigation_allNodes (p : NavLink → Bool)
    (rp : String → String → String → String) (lc : String → String → Int)
    (cfg : SiteConfig) (modules : List PageModule) (locale : String)
    (H1 : ∀ pg ∈ injectDirectoryNodes (scanPages rp modules locale (some "header") false),
      p (.mk pg.title pg.href .missing .missing) = true)
    (H2 : ∀ pg ∈ injectDirectoryNodes (scanPages rp modules locale (some "header") false),
      ∀ t h ls cm, p (.mk t h ls cm) = true → p (.mk pg.title pg.href ls cm) = true)
    (H3 : ∀ s m2, p (.mk (formatTitle s) none (.arr .nil) (.map m2)) = true)
    (H4 : ∀ t h ls cm m2, p (.mk t h ls cm) = true →
      p (.mk t h (ensureLinks ls) (.map m2)) = true)
    (HC : ∀ t h ls m, p (.mk t h ls (.map m)) = true →
      p (.mk t h (.arr (convertEntriesVals m)) (.map (convertEntries m))) = true)
    (HS : ∀ t h l cm, p (.mk t h (.arr l) cm) = true →
      p (.mk t h (.arr (sortNavLinks lc (sortChildrenList lc l))) cm) = true)
    (HK : ∀ t h ls cm, p (.mk t h ls cm) = true →
      p (.mk t h (collapseLinksOpt ls) cm) = true) :
    (generateNavigation rp lc cfg modules locale).links.all (allNodes p) = true := by
  show (collapseTop (buildNavigationTree lc (sortPages lc (injectDirectoryNodes
    (scanPages rp modules locale (some "header") false))))).all (allNodes p) = true
  rw [List.all_eq_true]
  intro x hx
  unfold collapseTop at hx
  rw [List.mem_map] at hx
  obtain ⟨y, hy, rfl⟩ := hx
  have hbuild := buildTree_allNodes p lc
    (sortPages lc (injectDirectoryNodes (scanPages rp modules locale (some "header") false)))
    (fun pg hpg => H1 pg (mem_sortPages.mp hpg))
    (fun pg hpg => H2 pg (mem_sortPages.mp hpg)) H3 H4 HC HS
  rw [List.all_eq_true] at hbuild
  exact collapseStep_allNodes p HK y (hbuild y hy)

/-! ## Membership in the grouped page list -/

theorem mem_addToGroup :
    ∀ (gs : List (String × List AutoNavPage)) (k : String) (pnew : AutoNavPage),
      ∀ g ∈ addToGroup gs k pnew, ∀ q ∈ g.2, (∃ g0 ∈ gs, q ∈ g0.2) ∨ q = pnew
  | [], k, pnew, g, hg, q, hq => by
    simp only [addToGroup, List.mem_singleton] at hg
    subst hg
    simp only [List.mem_singleton] at hq
    exact Or.inr hq
  | (k0, ps) :: rest, k, pnew, g, hg, q, hq => by
    unfold addToGroup at hg
    split at hg
    · rcases List.mem_cons.mp hg with rfl | hg2
      · rcases List.mem_append.mp hq with hq1 | hq1
        · exact Or.inl ⟨(k0, ps), List.mem_cons_self _ _, hq1⟩
        · simp only [List.mem_singleton] at hq1
          exact Or.inr hq1
      · exact Or.inl ⟨g, List.mem_cons_of_mem _ hg2, hq⟩
    · rcases List.mem_cons.mp hg with rfl | hg2
      · exact Or.inl ⟨(k0, ps), List.mem_cons_self _ _, hq⟩
      · rcases mem_addToGroup rest k pnew g hg2 q hq with ⟨g0, hg0, hq0⟩ | h
        · exact Or.inl ⟨g0, List.mem_cons_of_mem _ hg0, hq0⟩
        · exact Or.inr h

theorem groupFold_mem (P : AutoNavPage → Prop) :
    ∀ (pages : List AutoNavPage) (gs0 : List (String × List AutoNavPage)),
      (∀ g ∈ gs0, ∀ q ∈ g.2, P q) → (∀ pg ∈ pages, P pg) →
      ∀ g ∈ pages.foldl
        (fun groups page =>
          match splitPath page.path with
          | [] => groups
          | s :: _ => addToGroup groups s page) gs0,
        ∀ q ∈ g.2, P q
  | [], gs0, hg0, _, g, hg, q, hq => hg0 g hg q hq
  | pg :: pages, gs0, hg0, hpg, g, hg, q, hq => by
    refine groupFold_mem P pages _ ?_
      (fun x hx => hpg x (List.mem_cons_of_mem pg hx)) g hg q hq
    intro g1 hg1 q1 hq1
    dsimp only at hg1
    cases hsplit : splitPath pg.path with
    | nil =>
      rw [hsplit] at hg1
      exact hg0 g1 hg1 q1 hq1
    | cons s rest =>
      rw [hsplit] at hg1
      rcases mem_addToGroup gs0 s pg g1 hg1 q1 hq1 with ⟨g0, hg0m, hq0⟩ | h
      · exact hg0 g0 hg0m q1 hq0
      · rw [h]
        exact hpg pg (List.mem_cons_self pg pages)

theorem groupByFirstSegment_mem (pages : List AutoNavPage) :
    ∀ g ∈ groupByFirstSegment pages, ∀ q ∈ g.2, q ∈ pages :=
  groupFold_mem (· ∈ pages) pages [] (by simp) (fun _ h => h)

theorem mem_groupEmit (g : String × List AutoNavPage) (q : AutoNavPage)
    (h : q ∈ groupEmit g) : q = virtualParent g.1 ∨ q ∈ g.2 := by
  obtain ⟨k, ps⟩ := g
  match ps with
  | [] =>
    simp only [groupEmit, List.mem_singleton] at h
    exact Or.inl h
  | [p0] =>
    simp only [groupEmit, List.mem_singleton] at h
    exact Or.inr (by simp [h])
  | p0 :: p1 :: rest =>
    rcases List.mem_cons.mp h with rfl | h2
    · exact Or.inl rfl
    · exact Or.inr h2

theorem foldl_append_mem {β : Type} (f : β → List AutoNavPage) :
    ∀ (gs : List β) (init : List AutoNavPage) (q : AutoNavPage),
      q ∈ gs.foldl (fun r g => r ++ f g) init ↔ q ∈ init ∨ ∃ g ∈ gs, q ∈ f g
  | [], init, q => by simp
  | g :: gs, init, q => by
    rw [List.foldl_cons, foldl_append_mem f gs (init ++ f g) q, List.mem_append]
    constructor
    · rintro ((h | h) | ⟨g1, hg1, hq1⟩)
      · exact Or.inl h
      · exact Or.inr ⟨g, List.mem_cons_self _ _, h⟩
      · exact Or.inr ⟨g1, List.mem_cons_of_mem _ hg1, hq1⟩
    · rintro (h | ⟨g1, hg1, hq1⟩)
      · exact Or.inl (Or.inl h)
      · rcases List.mem_cons.mp hg1 with rfl | hg2
        · exact Or.inl (Or.inr hq1)
        · exact Or.inr ⟨g1, hg2, hq1⟩

theorem injectDirectoryNodes_mem {pages : List AutoNavPage} {q : AutoNavPage}
    (hq : q ∈ injectDirectoryNodes pages) :
    (∃ s, q = virtualParent s) ∨ q ∈ pages := by
  unfold injectDirectoryNodes at hq
  rw [foldl_append_mem] at hq
  rcases hq with h | ⟨g, hg, hqe⟩
  · simp at h
  · rcases mem_groupEmit g q hqe with h | h
    · exact Or.inl ⟨g.1, h⟩
    · exact Or.inr (groupByFirstSegment_mem pages g hg q h)

/-! ## Hrefs in the final output (C2) -/

/-- The acceptable href values of final nodes: absent, the `#`
placeholder of a virtual parent, or a resolver value of a scanned page. -/
def hrefOkayC2 (allowed : List (Option String)) : Option String → Bool
  | none => true
  | some s => s == "#" || decide (some s ∈ allowed)

/-- A node predicate that only inspects the href. -/
def hrefP (q : Option String → Bool) (n : NavLink) : Bool := q n.href

/-- Two pages sharing the `docs` first segment. -/
def pagesC2 : List AutoNavPage :=
  [ { path := "docs/a", title := "A", href := some "/a", navigation := none }
  , { path := "docs/b", title := "B", href := some "/b", navigation := none } ]

/-- Counterexample to C2 as stated: the synthesized `docs` parent does
not carry `href = undefined` — it carries the placeholder `#` (no page in
the output of `injectDirectoryNodes` has an undefined href here). -/
theorem virtual_parent_href_counterexample :
    (injectDirectoryNodes pagesC2).map (fun p => (p.path, p.href))
      = [("docs", some "#"), ("docs/a", some "/a"), ("docs/b", some "/b")]
    ∧ (injectDirectoryNodes pagesC2).map (fun p => hrefIsNone p.href)
      = [false, false, false] :=
  ⟨rfl, rfl⟩

/-- C2 amended: every page `injectDirectoryNodes` synthesizes is a
virtual parent carrying `href = some "#"` (not `undefined`), all other
pages pass through; every scanned page's href is exactly the resolver
value for its effective slug, kind and locale; and every href reachable
in `generateNavigation`'s final tree is either absent, the `#`
placeholder, or the unmodified resolver value of a scanned page. -/
theorem hrefs_round_trip (rp : String → String → String → String)
    (lc : String → String → Int) (cfg : SiteConfig) (modules : List PageModule)
    (locale : String) :
    (∀ (pages : List AutoNavPage) (pg : AutoNavPage), pg ∈ injectDirectoryNodes pages →
      ((∃ s, pg = virtualParent s) ∧ pg.href = some "#") ∨ pg ∈ pages)
    ∧ (∀ pg ∈ scanPages rp modules locale (some "header") false,
        pg.href = some (rp ((pg.navigation.bind (·.slug)).getD pg.path)
          ((pg.navigation.bind (·.ty)).getD "page") locale))
    ∧ (generateNavigation rp lc cfg modules locale).links.all
        (allNodes (hrefP (hrefOkayC2
          ((scanPages rp modules locale (some "header") false).map (·.href))))) = true := by
  refine ⟨?_, ?_, ?_⟩
  · intro pages pg hpg
    rcases injectDirectoryNodes_mem hpg with ⟨s, rfl⟩ | h
    · exact Or.inl ⟨⟨s, rfl⟩, rfl⟩
    · exact Or.inr h
  · intro pg hpg
    unfold scanPages at hpg
    obtain ⟨m, _, hm⟩ := List.mem_filterMap.mp hpg
    obtain ⟨_, hnav, hhref, _⟩ := scanOne_some hm
    rw [hhref, hnav]
  · have hq : ∀ pg ∈ injectDirectoryNodes
        (scanPages rp modules locale (some "header") false),
        hrefOkayC2 ((scanPages rp modules locale (some "header") false).map (·.href))
          pg.href = true := by
      intro pg hpg
      rcases injectDirectoryNodes_mem hpg with ⟨s, rfl⟩ | h
      · simp [virtualParent, hrefOkayC2]
      · cases hh : pg.href with
        | none => rfl
        | some s =>
          have : some s ∈ (scanPages rp modules locale (some "header") false).map
              (·.href) := List.mem_map.mpr ⟨pg, h, hh⟩
          simp [hrefOkayC2, this]
    exact generateNavigation_allNodes _ rp lc cfg modules locale
      (fun pg hpg => hq pg hpg)
      (fun pg hpg _ _ _ _ _ => hq pg hpg)
      (fun _ _ => rfl)
      (fun _ _ _ _ _ hp => hp)
      (fun _ _ _ _ hp => hp)
      (fun _ _ _ _ hp => hp)
      (fun _ _ _ _ hp => hp)

/-! ## The internal child map in the output (C9) -/

/-- Whether the `links` array of a node exists and is non-empty. -/
def linksNonemptyB (n : NavLink) : Bool :=
  match n.links with
  | .arr (.cons _ _) => true
  | _ => false

/-- Whether the `_childMap` field of a node is present. -/
def childMapPresentB (n : NavLink) : Bool :=
  match n.childMap with
  | .map _ => true
  | _ => false

/-- A node with children still carries its `_childMap`. -/
def mapOk (n : NavLink) : Bool :=
  !(linksNonemptyB n) || childMapPresentB n

/-- The glob entry of the header page `docs/a`. -/
def modC9a : PageModule :=
  { filePath := "/src/pages/[locale]/docs/a.astro"
    navigation := some { title := some "A", showIn := some (.arr ["header"]) } }

/-- The glob entry of the header page `docs/b`. -/
def modC9b : PageModule :=
  { filePath := "/src/pages/[locale]/docs/b.astro"
    navigation := some { title := some "B", showIn := some (.arr ["header"]) } }

/-- Counterexample to C9 as stated: the `Docs` node in the public output
of `generateNavigation` still carries the internal `_childMap` — neither
`convertMapToArray` nor `collapseSingleChildNodes` strips it. -/
theorem childMap_exposed_counterexample :
    ((generateNavigation rpDemo lcRef {} [modC9a, modC9b] "en").links).map
        (fun nd => (nd.title, childMapPresentB nd))
      = [("Docs", true)] :=
  rfl

/-- C9 amended: the returned tree keeps the intermediate keyed structure:
`convertMapToArray` never removes a present `_childMap`, and in the final
output of `generateNavigation` every node that has children also still
carries its `_childMap` field. -/
theorem childMap_not_stripped (rp : String → String → String → String)
    (lc : String → String → Int) (cfg : SiteConfig) (modules : List PageModule)
    (locale : String) :
    (∀ n : NavLink, childMapPresentB (convertMapToArray n) = childMapPresentB n)
    ∧ (generateNavigation rp lc cfg modules locale).links.all (allNodes mapOk) = true := by
  constructor
  · intro n
    obtain ⟨t, h, ls, cm⟩ := n
    cases cm with
    | missing => rfl
    | map m => cases m <;> rfl
  · refine generateNavigation_allNodes mapOk rp lc cfg modules locale
      (fun pg _ => rfl) (fun pg _ t h ls cm hp => hp) (fun _ _ => rfl)
      (fun t h ls cm m2 _ => by simp [mapOk, childMapPresentB, NavLink.childMap])
      (fun t h ls m _ => by simp [mapOk, childMapPresentB, NavLink.childMap])
      (fun t h l cm hp => ?_) (fun t h ls cm hp => ?_)
    · cases hS : sortNavLinks lc (sortChildrenList lc l) with
      | nil => simp [mapOk, linksNonemptyB, NavLink.links]
      | cons c ctl =>
        cases l with
        | nil =>
          rw [show sortNavLinks lc (sortChildrenList lc .nil) = .nil from rfl] at hS
          cases hS
        | cons x xtl =>
          simp only [mapOk, linksNonemptyB, NavLink.links, childMapPresentB,
            NavLink.childMap, Bool.not_true, Bool.false_or] at hp ⊢
          exact hp
    · cases ls with
      | missing => exact hp
      | arr l =>
        cases l with
        | nil => exact hp
        | cons x xtl =>
          simp only [collapseLinksOpt, collapseList, mapOk, linksNonemptyB,
            NavLink.links, childMapPresentB, NavLink.childMap, Bool.not_true,
            Bool.false_or] at hp ⊢
          exact hp

end AutoNav
